import Mathlib

/-!
Verification development for the diamond-square coastline heightmap generator
implemented in `src/experiments/fractal.py` (class `CoastlineGenerator`).

The Python code is embedded shallowly:
* the numpy `heightmap` array becomes a function `Nat → Nat → ℚ` updated
  pointwise (`writeCell` models one cell assignment `g[y, x] = v`);
* the global `random.random()` stream becomes an explicit sequence
  `u : Nat → ℚ` together with a counter `k` recording how many draws have
  been consumed so far (the code consumes draws in a fixed order:
  four corner draws, then one draw per diamond write, then one draw per
  square write, pass after pass);
* Python floats become rationals `ℚ`;
* Python `range(start, stop, step)` (positive step) becomes `pyRange`.
-/

namespace Fractal

/-- Python `range(start, stop, step)` for a positive `step`: the list
`[start, start+step, ...]` of all `start + i*step < stop`. -/
def pyRange (start stop step : Nat) : List Nat :=
  (List.range ((stop - start + step - 1) / step)).map fun i => start + i * step

/-- One numpy cell assignment `g[y, x] = v`, as a pointwise-updated grid. -/
def writeCell (g : Nat → Nat → ℚ) (y x : Nat) (v : ℚ) : Nat → Nat → ℚ :=
  fun y' x' => if y' = y ∧ x' = x then v else g y' x'

/-- State created by `CoastlineGenerator.__init__`: the stored `size`, the
zero-initialized `size × size` heightmap, and the hard-coded parameters
`roughness = 0.6` and `sea_level = 0.4`.  The constructor performs no
validation of `size` (the `2^n + 1` requirement is only a comment). -/
structure CoastlineGenerator where
  size : Nat
  heightmap : Nat → Nat → ℚ
  roughness : ℚ
  sea_level : ℚ

/-- Embeds `CoastlineGenerator.__init__(self, size)`. -/
def CoastlineGenerator.init (size : Nat) : CoastlineGenerator :=
  { size := size
    heightmap := fun _ _ => 0
    roughness := 3 / 5
    sea_level := 2 / 5 }

/-- Embeds `CoastlineGenerator._get_random_offset(self, current_range)`,
which returns `(random.random() - 0.5) * current_range * self.roughness`;
`ui` is the value produced by the `random.random()` call. -/
def get_random_offset (roughness currentRange ui : ℚ) : ℚ :=
  (ui - 1 / 2) * currentRange * roughness

/-- Mutable state threaded through `diamond_square`: the grid `g` and the
number `k` of `random.random()` draws consumed so far. -/
structure DSState where
  g : Nat → Nat → ℚ
  k : Nat

/-- Coordinates `(y, x)` visited by the diamond step of one pass:
`for y in range(0, size - 1, step): for x in range(0, size - 1, step)`. -/
def diamondCoords (N step : Nat) : List (Nat × Nat) :=
  (pyRange 0 (N - 1) step).flatMap fun y =>
    (pyRange 0 (N - 1) step).map fun x => (y, x)

/-- Coordinates `(y, x)` visited by the square step of one pass:
`for y in range(0, size, half): for x in range((y + half) % step, size, step)`. -/
def squareCoords (N step half : Nat) : List (Nat × Nat) :=
  (pyRange 0 N half).flatMap fun y =>
    (pyRange ((y + half) % step) N step).map fun x => (y, x)

/-- One diamond-step write: average the four corners of the square cell at
`(y, x)` of side `step` and set the center `(y + half, x + half)` to that
average plus a fresh random offset. -/
def diamondWrite (u : Nat → ℚ) (rough range : ℚ) (step half : Nat)
    (s : DSState) (p : Nat × Nat) : DSState :=
  let avg := (s.g p.1 p.2 + s.g (p.1 + step) p.2 + s.g p.1 (p.2 + step) +
      s.g (p.1 + step) (p.2 + step)) / 4
  { g := writeCell s.g (p.1 + half) (p.2 + half)
      (avg + get_random_offset rough range (u s.k))
    k := s.k + 1 }

/-- Number of in-bounds axis-aligned neighbors at distance `half` counted by
the four bounds checks of the square step (`count` in the Python code). -/
def squareNeighborCount (N half y x : Nat) : Nat :=
  (if half ≤ y then 1 else 0) + (if y + half < N then 1 else 0) +
  (if half ≤ x then 1 else 0) + (if x + half < N then 1 else 0)

/-- Sum of the in-bounds axis-aligned neighbor values accumulated by the four
bounds checks of the square step (`avg` in the Python code before `avg /= count`). -/
def squareNeighborSum (g : Nat → Nat → ℚ) (N half y x : Nat) : ℚ :=
  (if half ≤ y then g (y - half) x else 0) +
  (if y + half < N then g (y + half) x else 0) +
  (if half ≤ x then g y (x - half) else 0) +
  (if x + half < N then g y (x + half) else 0)

/-- One square-step write: average the in-bounds neighbors of `(y, x)` at
distance `half` (dividing by the neighbor count) and set `(y, x)` to that
average plus a fresh random offset. -/
def squareWrite (u : Nat → ℚ) (rough range : ℚ) (N half : Nat)
    (s : DSState) (p : Nat × Nat) : DSState :=
  let avg := squareNeighborSum s.g N half p.1 p.2 /
      (squareNeighborCount N half p.1 p.2 : ℚ)
  { g := writeCell s.g p.1 p.2 (avg + get_random_offset rough range (u s.k))
    k := s.k + 1 }

/-- One pass of the `while step_size > 1` loop body: the full diamond step
followed by the full square step, at the current `step` and noise `range`. -/
def dsPass (u : Nat → ℚ) (rough : ℚ) (N step : Nat) (range : ℚ)
    (s : DSState) : DSState :=
  let half := step / 2
  let s1 := (diamondCoords N step).foldl (diamondWrite u rough range step half) s
  (squareCoords N step half).foldl (squareWrite u rough range N half) s1

/-- The `while step_size > 1` loop of `diamond_square`: run a pass, then halve
`step_size` (integer division) and multiply `range_size` by `0.5`. -/
def dsLoop (u : Nat → ℚ) (rough : ℚ) (N step : Nat) (range : ℚ)
    (s : DSState) : DSState :=
  if h : 1 < step then
    dsLoop u rough N (step / 2) (range * (1 / 2)) (dsPass u rough N step range s)
  else s
termination_by step
decreasing_by omega

/-- Embeds `CoastlineGenerator.diamond_square(self)`: draw the four corner
values (`heightmap[0,0]`, `heightmap[0,-1]`, `heightmap[-1,0]`,
`heightmap[-1,-1]`, where numpy index `-1` is `size - 1`), then run the
subdivision loop starting from `step_size = size - 1`, `range_size = 1.0`. -/
def CoastlineGenerator.diamond_square (u : Nat → ℚ) (gen : CoastlineGenerator) :
    CoastlineGenerator :=
  let N := gen.size
  let g0 := writeCell (writeCell (writeCell (writeCell gen.heightmap
      0 0 (u 0)) 0 (N - 1) (u 1)) (N - 1) 0 (u 2)) (N - 1) (N - 1) (u 3)
  let s := dsLoop u gen.roughness N (N - 1) 1 { g := g0, k := 4 }
  { gen with heightmap := s.g }

/-- All `N × N` cell values of a grid, row-major. -/
def gridVals (N : Nat) (g : Nat → Nat → ℚ) : List ℚ :=
  (List.range N).flatMap fun y => (List.range N).map fun x => g y x

/-- Models `np.min(self.heightmap)` for an `N × N` grid with `N ≥ 1`. -/
def gridMin (N : Nat) (g : Nat → Nat → ℚ) : ℚ :=
  (gridVals N g).foldl min (g 0 0)

/-- Models `np.max(self.heightmap)` for an `N × N` grid with `N ≥ 1`. -/
def gridMax (N : Nat) (g : Nat → Nat → ℚ) : ℚ :=
  (gridVals N g).foldl max (g 0 0)

/-- Embeds the heightmap-producing part of
`CoastlineGenerator.generate_coastline(self)`: run `diamond_square`, then
rescale every cell by `(value - min) / (max - min)` with no check that
`max ≠ min`.  The subsequent RGB image construction only reads the
normalized heightmap and is out of scope. -/
def CoastlineGenerator.generate_coastline (u : Nat → ℚ)
    (gen : CoastlineGenerator) : CoastlineGenerator :=
  let gen2 := gen.diamond_square u
  let minVal := gridMin gen2.size gen2.heightmap
  let maxVal := gridMax gen2.size gen2.heightmap
  { gen2 with
    heightmap := fun y x => (gen2.heightmap y x - minVal) / (maxVal - minVal) }

/-- The raw (pre-normalization) heightmap produced by `diamond_square` on a
freshly constructed generator of side `N`. -/
def rawGrid (u : Nat → ℚ) (N : Nat) : Nat → Nat → ℚ :=
  ((CoastlineGenerator.init N).diamond_square u).heightmap

/-- Trace of the `while step_size > 1` loop: the successive values of
`step_size` for which the loop body executes. -/
def loopSteps (step : Nat) : List Nat :=
  if h : 1 < step then step :: loopSteps (step / 2) else []
termination_by step
decreasing_by omega

/-- Modelled from the spec: `size` is valid when `size ≥ 3` and `size - 1` is
a power of two, i.e. `size = 2^n + 1`.  The Python constructor states this
requirement only in a comment and never checks it; this predicate is the
spec's side of that comparison. -/
def specValidSize (s : Nat) : Prop := 3 ≤ s ∧ ∃ n, s = 2 ^ n + 1

/-! ### Basic lemmas about the embedding -/

lemma dsLoop_unfold (u : Nat → ℚ) (rough : ℚ) (N step : Nat) (range : ℚ)
    (s : DSState) :
    dsLoop u rough N step range s =
      if 1 < step then
        dsLoop u rough N (step / 2) (range * (1 / 2)) (dsPass u rough N step range s)
      else s := by
  rw [dsLoop]
  simp

lemma loopSteps_unfold (step : Nat) :
    loopSteps step =
      if 1 < step then step :: loopSteps (step / 2) else [] := by
  rw [loopSteps]
  simp

lemma pyRange_mem {start stop step m : Nat} (hstep : 1 ≤ step)
    (h : m ∈ pyRange start stop step) :
    start ≤ m ∧ m < stop ∧ m % step = start % step := by
  unfold pyRange at h
  obtain ⟨i, hi, rfl⟩ := List.mem_map.1 h
  have hi' := List.mem_range.1 hi
  refine ⟨Nat.le_add_right _ _, ?_, Nat.add_mul_mod_self_right ..⟩
  have h2 : (i + 1) * step ≤ stop - start + step - 1 :=
    (Nat.le_div_iff_mul_le (by omega)).1 hi'
  rw [Nat.succ_mul] at h2
  omega

lemma mem_diamondCoords {N step : Nat} {p : Nat × Nat}
    (h : p ∈ diamondCoords N step) :
    p.1 ∈ pyRange 0 (N - 1) step ∧ p.2 ∈ pyRange 0 (N - 1) step := by
  unfold diamondCoords at h
  obtain ⟨y, hy, hp⟩ := List.mem_flatMap.1 h
  obtain ⟨x, hx, rfl⟩ := List.mem_map.1 hp
  exact ⟨hy, hx⟩

lemma mem_squareCoords {N step half : Nat} {p : Nat × Nat}
    (h : p ∈ squareCoords N step half) :
    p.1 ∈ pyRange 0 N half ∧ p.2 ∈ pyRange ((p.1 + half) % step) N step := by
  unfold squareCoords at h
  obtain ⟨y, hy, hp⟩ := List.mem_flatMap.1 h
  obtain ⟨x, hx, rfl⟩ := List.mem_map.1 hp
  exact ⟨hy, hx⟩

lemma writeCell_ne (g : Nat → Nat → ℚ) (y x : Nat) (v : ℚ) (y' x' : Nat)
    (h : ¬(y' = y ∧ x' = x)) : writeCell g y x v y' x' = g y' x' :=
  if_neg h

lemma foldl_diamondWrite_g (u : Nat → ℚ) (rough range : ℚ)
    (step half cy cx : Nat) :
    ∀ (l : List (Nat × Nat)) (s : DSState),
      (∀ p ∈ l, ¬(cy = p.1 + half ∧ cx = p.2 + half)) →
      (l.foldl (diamondWrite u rough range step half) s).g cy cx = s.g cy cx := by
  intro l
  induction l with
  | nil => intro s _; rfl
  | cons p t ih =>
      intro s h
      rw [List.foldl_cons, ih _ (fun q hq => h q (List.mem_cons_of_mem _ hq))]
      exact writeCell_ne _ _ _ _ _ _ (h p (List.mem_cons_self _ _))

lemma foldl_squareWrite_g (u : Nat → ℚ) (rough range : ℚ) (N half cy cx : Nat) :
    ∀ (l : List (Nat × Nat)) (s : DSState),
      (∀ p ∈ l, ¬(cy = p.1 ∧ cx = p.2)) →
      (l.foldl (squareWrite u rough range N half) s).g cy cx = s.g cy cx := by
  intro l
  induction l with
  | nil => intro s _; rfl
  | cons p t ih =>
      intro s h
      rw [List.foldl_cons, ih _ (fun q hq => h q (List.mem_cons_of_mem _ hq))]
      exact writeCell_ne _ _ _ _ _ _ (h p (List.mem_cons_self _ _))

lemma add_mod_eq_of_mod_zero {c step half : Nat} (hc : c % step = 0)
    (hh : half < step) : (c + half) % step = half := by
  rw [Nat.add_mod, hc, Nat.zero_add, Nat.mod_mod_of_dvd _ dvd_rfl,
    Nat.mod_eq_of_lt hh]

/-! ### Corner preservation

No diamond-step or square-step write of any pass targets one of the four
grid corners, so the corner draws made before the loop survive it. -/

lemma dsPass_corner (u : Nat → ℚ) (rough range : ℚ) (N step : Nat)
    (s : DSState) (h2 : 2 ≤ step) (hd : step ∣ N - 1) (cy cx : Nat)
    (hcy : cy = 0 ∨ cy = N - 1) (hcx : cx = 0 ∨ cx = N - 1) :
    (dsPass u rough N step range s).g cy cx = s.g cy cx := by
  have hhalf1 : 1 ≤ step / 2 := by omega
  have hhalfs : step / 2 < step := by omega
  have hcymod : cy % step = 0 := by
    rcases hcy with rfl | rfl
    · exact Nat.zero_mod step
    · exact Nat.mod_eq_zero_of_dvd hd
  have hcxmod : cx % step = 0 := by
    rcases hcx with rfl | rfl
    · exact Nat.zero_mod step
    · exact Nat.mod_eq_zero_of_dvd hd
  simp only [dsPass]
  rw [foldl_squareWrite_g, foldl_diamondWrite_g]
  · intro p hp hcp
    obtain ⟨hp1, _⟩ := mem_diamondCoords hp
    have hp1m : p.1 % step = 0 := by
      have := (pyRange_mem (by omega) hp1).2.2
      simpa using this
    have : cy % step = step / 2 := by
      rw [hcp.1, add_mod_eq_of_mod_zero hp1m hhalfs]
    omega
  · intro p hp hcp
    obtain ⟨hp1, hp2⟩ := mem_squareCoords hp
    have hp2m : p.2 % step = (p.1 + step / 2) % step := by
      have := (pyRange_mem (by omega) hp2).2.2
      rwa [Nat.mod_mod_of_dvd _ dvd_rfl] at this
    rw [← hcp.1, ← hcp.2, add_mod_eq_of_mod_zero hcymod hhalfs] at hp2m
    omega

lemma dsLoop_corner (u : Nat → ℚ) (rough : ℚ) (N : Nat) (cy cx : Nat)
    (hcy : cy = 0 ∨ cy = N - 1) (hcx : cx = 0 ∨ cx = N - 1) :
    ∀ (j : Nat), 2 ^ j ∣ N - 1 → ∀ (range : ℚ) (s : DSState),
      (dsLoop u rough N (2 ^ j) range s).g cy cx = s.g cy cx := by
  intro j
  induction j with
  | zero => intro _ range s; rw [dsLoop_unfold, if_neg (by norm_num)]
  | succ m ih =>
      intro hd range s
      rw [dsLoop_unfold, if_pos (by omega),
        show 2 ^ (m + 1) / 2 = 2 ^ m by omega,
        ih (dvd_trans (pow_dvd_pow 2 (Nat.le_succ m)) hd) _ _]
      exact dsPass_corner u rough range N (2 ^ (m + 1)) s (by omega) hd
        cy cx hcy hcx

lemma diamond_square_corners (n N : Nat) (hn : 1 ≤ n) (hN : N = 2 ^ n + 1)
    (u : Nat → ℚ) :
    rawGrid u N 0 0 = u 0 ∧ rawGrid u N 0 (N - 1) = u 1 ∧
    rawGrid u N (N - 1) 0 = u 2 ∧ rawGrid u N (N - 1) (N - 1) = u 3 := by
  have hN1 : ¬((0 : Nat) = N - 1) := by
    have := Nat.one_lt_two_pow (n := n) (by omega)
    omega
  have hstep : N - 1 = 2 ^ n := by omega
  have hcorner : ∀ cy cx : Nat, (cy = 0 ∨ cy = N - 1) → (cx = 0 ∨ cx = N - 1) →
      rawGrid u N cy cx =
        writeCell (writeCell (writeCell (writeCell (fun _ _ => 0)
          0 0 (u 0)) 0 (N - 1) (u 1)) (N - 1) 0 (u 2)) (N - 1) (N - 1) (u 3)
          cy cx := by
    intro cy cx hcy hcx
    have hd : 2 ^ n ∣ N - 1 := hstep ▸ dvd_rfl
    have h := dsLoop_corner u (CoastlineGenerator.init N).roughness N cy cx hcy hcx n hd
    rw [← hstep] at h
    exact h 1 _
  refine ⟨?_, ?_, ?_, ?_⟩
  · rw [hcorner 0 0 (Or.inl rfl) (Or.inl rfl)]
    simp [writeCell, hN1]
  · rw [hcorner 0 (N - 1) (Or.inl rfl) (Or.inr rfl)]
    simp [writeCell, hN1]
  · rw [hcorner (N - 1) 0 (Or.inr rfl) (Or.inl rfl)]
    simp [writeCell, hN1]
  · rw [hcorner (N - 1) (N - 1) (Or.inr rfl) (Or.inr rfl)]
    simp [writeCell]

/-! ### Minimum and maximum over the grid -/

lemma foldl_min_le_init (l : List ℚ) : ∀ a : ℚ, l.foldl min a ≤ a := by
  induction l with
  | nil => intro a; exact le_refl a
  | cons c t ih =>
      intro a
      exact le_trans (ih (min a c)) (min_le_left a c)

lemma foldl_min_le {l : List ℚ} {b : ℚ} (h : b ∈ l) :
    ∀ a : ℚ, l.foldl min a ≤ b := by
  induction l with
  | nil => cases h
  | cons c t ih =>
      intro a
      rcases List.mem_cons.1 h with rfl | hb
      · exact le_trans (foldl_min_le_init t (min a b)) (min_le_right a b)
      · exact ih hb (min a c)

lemma le_foldl_max_init (l : List ℚ) : ∀ a : ℚ, a ≤ l.foldl max a := by
  induction l with
  | nil => intro a; exact le_refl a
  | cons c t ih =>
      intro a
      exact le_trans (le_max_left a c) (ih (max a c))

lemma le_foldl_max {l : List ℚ} {b : ℚ} (h : b ∈ l) :
    ∀ a : ℚ, b ≤ l.foldl max a := by
  induction l with
  | nil => cases h
  | cons c t ih =>
      intro a
      rcases List.mem_cons.1 h with rfl | hb
      · exact le_trans (le_max_right a b) (le_foldl_max_init t (max a b))
      · exact ih hb (max a c)

lemma mem_gridVals (N : Nat) (g : Nat → Nat → ℚ) {y x : Nat}
    (hy : y < N) (hx : x < N) : g y x ∈ gridVals N g :=
  List.mem_flatMap.2 ⟨y, List.mem_range.2 hy,
    List.mem_map.2 ⟨x, List.mem_range.2 hx, rfl⟩⟩

lemma gridMin_le (N : Nat) (g : Nat → Nat → ℚ) {y x : Nat}
    (hy : y < N) (hx : x < N) : gridMin N g ≤ g y x :=
  foldl_min_le (mem_gridVals N g hy hx) (g 0 0)

lemma le_gridMax (N : Nat) (g : Nat → Nat → ℚ) {y x : Nat}
    (hy : y < N) (hx : x < N) : g y x ≤ gridMax N g :=
  le_foldl_max (mem_gridVals N g hy hx) (g 0 0)

/-- Unfolds the normalized heightmap of `generate_coastline` on a freshly
constructed generator: every cell is `(raw - min) / (max - min)`. -/
lemma generate_init_heightmap (u : Nat → ℚ) (N : Nat) :
    ((CoastlineGenerator.init N).generate_coastline u).heightmap = fun y x =>
      (rawGrid u N y x - gridMin N (rawGrid u N)) /
        (gridMax N (rawGrid u N) - gridMin N (rawGrid u N)) := rfl

lemma generate_init_size (u : Nat → ℚ) (N : Nat) :
    ((CoastlineGenerator.init N).generate_coastline u).size = N := rfl

/-! ### Concrete evaluation at size 3

For a `3 × 3` grid the loop runs exactly one pass (`step_size = 2`), which
lets concrete runs be computed by rewriting the loop away and normalizing. -/

lemma rawGrid_three (u : Nat → ℚ) : rawGrid u 3 =
    (dsPass u (3 / 5) 3 2 1
      ⟨writeCell (writeCell (writeCell (writeCell (fun _ _ => 0) 0 0 (u 0))
        0 2 (u 1)) 2 0 (u 2)) 2 2 (u 3), 4⟩).g := by
  show (dsLoop u (3 / 5) 3 2 1 _).g = _
  rw [dsLoop_unfold, if_pos (by norm_num), dsLoop_unfold, if_neg (by norm_num)]
  rfl

/-- With every random draw equal to `1/2`, all offsets vanish and the
`3 × 3` run produces the constant grid: its minimum equals its maximum. -/
lemma rawGrid_half_flat :
    gridMin 3 (rawGrid (fun _ => (1 : ℚ) / 2) 3) =
      gridMax 3 (rawGrid (fun _ => (1 : ℚ) / 2) 3) := by
  rw [rawGrid_three]
  norm_num [dsPass, diamondCoords, squareCoords, pyRange, diamondWrite,
    squareWrite, writeCell, gridMin, gridMax, gridVals, squareNeighborSum,
    squareNeighborCount, get_random_offset, List.range_succ, min_def, max_def]

/-! ### The subdivision loop trace -/

lemma loopSteps_two_pow_length (n : Nat) : (loopSteps (2 ^ n)).length = n := by
  induction n with
  | zero => rw [loopSteps_unfold]; norm_num
  | succ m ih =>
      have hp := Nat.two_pow_pos m
      rw [loopSteps_unfold, if_pos (by omega),
        show 2 ^ (m + 1) / 2 = 2 ^ m by omega]
      simp [ih]

lemma loopSteps_two_pow_mem (n : Nat) : ∀ s ∈ loopSteps (2 ^ n), 1 < s := by
  induction n with
  | zero => rw [loopSteps_unfold]; norm_num
  | succ m ih =>
      have hp := Nat.two_pow_pos m
      rw [loopSteps_unfold, if_pos (by omega),
        show 2 ^ (m + 1) / 2 = 2 ^ m by omega]
      intro s hs
      rcases List.mem_cons.1 hs with rfl | hs'
      · omega
      · exact ih s hs'

/-! ### Claims -/

/-- C1 (counterexample): the claim says construction reports
`InvalidSizeError` for `size = 10` and `size = 2`; in fact `__init__`
performs no validation at all — both constructions succeed, storing the
invalid size and a zero grid. -/
theorem init_accepts_invalid_sizes :
    ¬specValidSize 10 ∧ ¬specValidSize 2 ∧
    (CoastlineGenerator.init 10).size = 10 ∧
    (CoastlineGenerator.init 10).heightmap 0 0 = 0 ∧
    (CoastlineGenerator.init 2).size = 2 := by
  refine ⟨?_, ?_, rfl, rfl, rfl⟩
  · rintro ⟨-, n, hn⟩
    rcases n with - | m
    · norm_num at hn
    · have h2 : (2 : ℕ) ∣ 2 ^ (m + 1) := dvd_pow_self 2 (Nat.succ_ne_zero m)
      omega
  · rintro ⟨h, -⟩
    omega

/-- C1 (amended): construction never fails and never validates `size`; for
every `size` it succeeds, storing `size`, an all-zero heightmap, and the
fixed parameters `roughness = 0.6`, `sea_level = 0.4`. -/
theorem init_no_validation (size : Nat) :
    (CoastlineGenerator.init size).size = size ∧
    (∀ y x, (CoastlineGenerator.init size).heightmap y x = 0) ∧
    (CoastlineGenerator.init size).roughness = 3 / 5 ∧
    (CoastlineGenerator.init size).sea_level = 2 / 5 :=
  ⟨rfl, fun _ _ => rfl, rfl, rfl⟩

/-- C2: for every valid `size = 2^n + 1` with `n ≥ 1`, as long as the raw
grid is not degenerate (`min < max`, the case C3 covers), generation keeps
the `size` and every cell of the normalized heightmap lies in `[0, 1]`. -/
theorem generate_in_unit_interval (n N : Nat) (hn : 1 ≤ n)
    (hN : N = 2 ^ n + 1) (u : Nat → ℚ)
    (hdeg : gridMin N (rawGrid u N) < gridMax N (rawGrid u N)) :
    ((CoastlineGenerator.init N).generate_coastline u).size = N ∧
    ∀ y x, y < N → x < N →
      0 ≤ ((CoastlineGenerator.init N).generate_coastline u).heightmap y x ∧
      ((CoastlineGenerator.init N).generate_coastline u).heightmap y x ≤ 1 := by
  refine ⟨rfl, fun y x hy hx => ?_⟩
  simp only [generate_init_heightmap]
  constructor
  · exact div_nonneg (sub_nonneg.2 (gridMin_le N _ hy hx))
      (sub_nonneg.2 hdeg.le)
  · rw [div_le_one (sub_pos.2 hdeg)]
    exact sub_le_sub_right (le_gridMax N _ hy hx) _

/-- C2 witness at `N = 3` with a stream whose first draw differs from the
others, so the raw range is nondegenerate. -/
theorem generate_in_unit_interval_witness :
    ((CoastlineGenerator.init 3).generate_coastline
        (fun i => if i = 0 then 0 else 1 / 2)).size = 3 ∧
    ∀ y x, y < 3 → x < 3 →
      0 ≤ ((CoastlineGenerator.init 3).generate_coastline
        (fun i => if i = 0 then 0 else 1 / 2)).heightmap y x ∧
      ((CoastlineGenerator.init 3).generate_coastline
        (fun i => if i = 0 then 0 else 1 / 2)).heightmap y x ≤ 1 := by
  refine generate_in_unit_interval 1 3 le_rfl rfl _ ?_
  have hc := diamond_square_corners 1 3 le_rfl rfl
    (fun i => if i = 0 then 0 else 1 / 2)
  calc gridMin 3 (rawGrid (fun i => if i = 0 then 0 else 1 / 2) 3) ≤
      rawGrid (fun i => if i = 0 then 0 else 1 / 2) 3 0 0 :=
        gridMin_le 3 _ (by norm_num) (by norm_num)
    _ = 0 := hc.1
    _ < 1 / 2 := by norm_num
    _ = rawGrid (fun i => if i = 0 then 0 else 1 / 2) 3 0 2 := hc.2.1.symm
    _ ≤ gridMax 3 (rawGrid (fun i => if i = 0 then 0 else 1 / 2) 3) :=
        le_gridMax 3 _ (by norm_num) (by norm_num)

/-- C3 (counterexample): with every `random.random()` draw equal to `1/2`
the raw `3 × 3` grid comes out flat (`min = max`); the code then performs
the normalization division anyway — no `DegenerateRangeError` is raised and
the result is not the uniform-`0.5` fallback, but the division-by-zero
value (`0` for rationals, `NaN` for floats). -/
theorem degenerate_range_divides_by_zero :
    gridMin 3 (rawGrid (fun _ => (1 : ℚ) / 2) 3) =
      gridMax 3 (rawGrid (fun _ => (1 : ℚ) / 2) 3) ∧
    ((CoastlineGenerator.init 3).generate_coastline
      (fun _ => (1 : ℚ) / 2)).heightmap 0 0 = 0 ∧
    ((CoastlineGenerator.init 3).generate_coastline
      (fun _ => (1 : ℚ) / 2)).heightmap 0 0 ≠ 1 / 2 := by
  have h0 : gridMax 3 (rawGrid (fun _ => (1 : ℚ) / 2) 3) -
      gridMin 3 (rawGrid (fun _ => (1 : ℚ) / 2) 3) = 0 := by
    rw [rawGrid_half_flat, sub_self]
  refine ⟨rawGrid_half_flat, ?_, ?_⟩ <;> simp only [generate_init_heightmap]
  · rw [h0, div_zero]
  · rw [h0, div_zero]
    norm_num

/-- C3 (amended): when the post-generation minimum equals the maximum, the
code performs no check and no fallback: every normalized cell is computed
as `(raw - min) / 0`, an outright division by zero. -/
theorem normalize_degenerate_divides_by_zero (u : Nat → ℚ) (N y x : Nat)
    (h : gridMin N (rawGrid u N) = gridMax N (rawGrid u N)) :
    ((CoastlineGenerator.init N).generate_coastline u).heightmap y x =
      (rawGrid u N y x - gridMin N (rawGrid u N)) / 0 := by
  simp only [generate_init_heightmap]
  rw [h, sub_self]

/-- C3 amended-claim witness at the flat constant-`1/2` run. -/
theorem normalize_degenerate_divides_by_zero_witness :
    ((CoastlineGenerator.init 3).generate_coastline
      (fun _ => (1 : ℚ) / 2)).heightmap 1 1 =
      (rawGrid (fun _ => (1 : ℚ) / 2) 3 1 1 -
        gridMin 3 (rawGrid (fun _ => (1 : ℚ) / 2) 3)) / 0 :=
  normalize_degenerate_divides_by_zero _ 3 1 1 rawGrid_half_flat

/-- C4: generation is deterministic — the output heightmap depends only on
the pointwise values of the random stream (which the global `random` module
reproduces for a fixed seed), consumed in a fixed order. -/
theorem generate_deterministic (N : Nat) (u v : Nat → ℚ)
    (h : ∀ i, u i = v i) :
    ((CoastlineGenerator.init N).generate_coastline u).heightmap =
      ((CoastlineGenerator.init N).generate_coastline v).heightmap := by
  rw [funext h]

/-- C4 witness: two equal streams at `N = 3`. -/
theorem generate_deterministic_witness :
    ((CoastlineGenerator.init 3).generate_coastline (fun _ => (0 : ℚ))).heightmap =
      ((CoastlineGenerator.init 3).generate_coastline (fun _ => (0 : ℚ))).heightmap :=
  generate_deterministic 3 _ _ (fun _ => rfl)

/-- C5: for every valid `size = 2^n + 1`, `n ≥ 1`, the four corners hold
exactly the four draws made before the first pass — no diamond or square
write of any pass ever targets a corner. -/
theorem corners_set_once_never_overwritten (n N : Nat) (hn : 1 ≤ n)
    (hN : N = 2 ^ n + 1) (u : Nat → ℚ) :
    rawGrid u N 0 0 = u 0 ∧ rawGrid u N 0 (N - 1) = u 1 ∧
    rawGrid u N (N - 1) 0 = u 2 ∧ rawGrid u N (N - 1) (N - 1) = u 3 :=
  diamond_square_corners n N hn hN u

/-- C5 witness at `N = 3` with the stream `i ↦ i`. -/
theorem corners_set_once_never_overwritten_witness :
    rawGrid (fun i => (i : ℚ)) 3 0 0 = ((0 : Nat) : ℚ) ∧
    rawGrid (fun i => (i : ℚ)) 3 0 2 = ((1 : Nat) : ℚ) ∧
    rawGrid (fun i => (i : ℚ)) 3 2 0 = ((2 : Nat) : ℚ) ∧
    rawGrid (fun i => (i : ℚ)) 3 2 2 = ((3 : Nat) : ℚ) :=
  corners_set_once_never_overwritten 1 3 le_rfl rfl (fun i => (i : ℚ))

/-- C6: the square-step bounds checks count exactly 2 in-bounds neighbors at
grid corner `(0,0)`, exactly 3 at any edge (non-corner) boundary point, and
exactly 4 at any interior point; the count is an ordinary total function,
not an error path. -/
theorem square_step_neighbor_counts (N half e iy ix : Nat)
    (h1 : 0 < half) (h2 : half < N) (he1 : half ≤ e) (he2 : e + half < N)
    (hiy1 : half ≤ iy) (hiy2 : iy + half < N)
    (hix1 : half ≤ ix) (hix2 : ix + half < N) :
    squareNeighborCount N half 0 0 = 2 ∧
    squareNeighborCount N half 0 e = 3 ∧
    squareNeighborCount N half (N - 1) e = 3 ∧
    squareNeighborCount N half e 0 = 3 ∧
    squareNeighborCount N half e (N - 1) = 3 ∧
    squareNeighborCount N half iy ix = 4 := by
  refine ⟨?_, ?_, ?_, ?_, ?_, ?_⟩ <;>
    (simp only [squareNeighborCount]; split_ifs <;> omega)

/-- C6 witness on the `size = 5` grid of the spec's unit test, with
`half = 2` (the first pass): corner `(0,0)`, the four edge midpoints, and
the center `(2,2)`. -/
theorem square_step_neighbor_counts_witness :
    squareNeighborCount 5 2 0 0 = 2 ∧
    squareNeighborCount 5 2 0 2 = 3 ∧
    squareNeighborCount 5 2 4 2 = 3 ∧
    squareNeighborCount 5 2 2 0 = 3 ∧
    squareNeighborCount 5 2 2 4 = 3 ∧
    squareNeighborCount 5 2 2 2 = 4 :=
  square_step_neighbor_counts 5 2 2 2 2 (by norm_num) (by norm_num)
    (by norm_num) (by norm_num) (by norm_num) (by norm_num)
    (by norm_num) (by norm_num)

/-- C7 (counterexample): at `range = 0` — a value the claim's "every
non-negative range" includes — the offset for the valid draw `1/2` is `0`,
which does not lie in the empty half-open interval `[-0/2, 0/2)`; so the
claim as stated fails at `range = 0`. -/
theorem next_offset_zero_range_cex :
    (0 : ℚ) ≤ 1 / 2 ∧ (1 / 2 : ℚ) < 1 ∧
    get_random_offset (CoastlineGenerator.init 513).roughness 0 (1 / 2) = 0 ∧
    ¬(-((0 : ℚ) / 2) ≤
        get_random_offset (CoastlineGenerator.init 513).roughness 0 (1 / 2) ∧
      get_random_offset (CoastlineGenerator.init 513).roughness 0 (1 / 2) <
        (0 : ℚ) / 2) := by
  norm_num [get_random_offset, CoastlineGenerator.init]

/-- C7 (amended): for every positive `range` and every draw `ui ∈ [0, 1)`,
the offset `(ui - 0.5) * range * roughness` produced with the constructed
`roughness = 0.6` lies in `[-range/2, range/2)` — in particular every
offset added during a pass, whose amplitude `range_size` is a positive
power of `1/2`, lies in that interval.  (Uniformity of the distribution is
a statistical property outside this embedding.) -/
theorem next_offset_in_range (sz : Nat) (range ui : ℚ)
    (hr : 0 < range) (h0 : 0 ≤ ui) (h1 : ui < 1) :
    -(range / 2) ≤
      get_random_offset (CoastlineGenerator.init sz).roughness range ui ∧
    get_random_offset (CoastlineGenerator.init sz).roughness range ui <
      range / 2 := by
  have hro : (CoastlineGenerator.init sz).roughness = 3 / 5 := rfl
  rw [hro]
  unfold get_random_offset
  constructor <;> nlinarith

/-- C7 amended-claim witness at `range = 1`, `ui = 0`. -/
theorem next_offset_in_range_witness :
    -((1 : ℚ) / 2) ≤
      get_random_offset (CoastlineGenerator.init 513).roughness 1 0 ∧
    get_random_offset (CoastlineGenerator.init 513).roughness 1 0 <
      (1 : ℚ) / 2 :=
  next_offset_in_range 513 1 0 one_pos le_rfl (by norm_num)

/-- C8: normalization is a monotone affine rescale — whenever one raw cell
is at most another, the normalized values keep that order (given a
nondegenerate raw range, so the divisor is positive). -/
theorem normalization_monotone (u : Nat → ℚ) (N y x y' x' : Nat)
    (hdeg : gridMin N (rawGrid u N) < gridMax N (rawGrid u N))
    (hle : rawGrid u N y x ≤ rawGrid u N y' x') :
    ((CoastlineGenerator.init N).generate_coastline u).heightmap y x ≤
      ((CoastlineGenerator.init N).generate_coastline u).heightmap y' x' := by
  simp only [generate_init_heightmap]
  exact (div_le_div_iff_of_pos_right (sub_pos.2 hdeg)).2
    (sub_le_sub_right hle _)

/-- C8 witness: corners `(0,0)` and `(0,2)` of the `N = 3` run whose first
draw is `0` and later draws `1/2`. -/
theorem normalization_monotone_witness :
    ((CoastlineGenerator.init 3).generate_coastline
      (fun i => if i = 0 then 0 else 1 / 2)).heightmap 0 0 ≤
    ((CoastlineGenerator.init 3).generate_coastline
      (fun i => if i = 0 then 0 else 1 / 2)).heightmap 0 2 := by
  have hc := diamond_square_corners 1 3 le_rfl rfl
    (fun i => if i = 0 then 0 else 1 / 2)
  refine normalization_monotone _ 3 0 0 0 2 ?_ ?_
  · calc gridMin 3 (rawGrid (fun i => if i = 0 then 0 else 1 / 2) 3) ≤
        rawGrid (fun i => if i = 0 then 0 else 1 / 2) 3 0 0 :=
          gridMin_le 3 _ (by norm_num) (by norm_num)
      _ = 0 := hc.1
      _ < 1 / 2 := by norm_num
      _ = rawGrid (fun i => if i = 0 then 0 else 1 / 2) 3 0 2 := hc.2.1.symm
      _ ≤ gridMax 3 (rawGrid (fun i => if i = 0 then 0 else 1 / 2) 3) :=
          le_gridMax 3 _ (by norm_num) (by norm_num)
  · calc rawGrid (fun i => if i = 0 then 0 else 1 / 2) 3 0 0 = 0 := hc.1
      _ ≤ 1 / 2 := by norm_num
      _ = rawGrid (fun i => if i = 0 then 0 else 1 / 2) 3 0 2 := hc.2.1.symm

/-- C9: for `size = 2^n + 1` the `while step_size > 1` loop runs exactly
`n = log2(size - 1)` passes, its body only ever executes with
`step_size > 1`, and for `step_size ≤ 1` the loop returns its state
untouched; the halving recursion terminates by construction. -/
theorem step_loop_pass_count (n N step0 : Nat) (u : Nat → ℚ)
    (rough range : ℚ) (st : DSState) (hn : 1 ≤ n) (hN : N = 2 ^ n + 1)
    (hstep0 : step0 ≤ 1) :
    (loopSteps (N - 1)).length = n ∧
    (∀ s ∈ loopSteps (N - 1), 1 < s) ∧
    dsLoop u rough N step0 range st = st := by
  have hN1 : N - 1 = 2 ^ n := by rw [hN, Nat.add_sub_cancel]
  refine ⟨?_, ?_, ?_⟩
  · rw [hN1]; exact loopSteps_two_pow_length n
  · rw [hN1]; exact loopSteps_two_pow_mem n
  · have hlt : ¬1 < step0 := by omega
    rw [dsLoop_unfold, if_neg hlt]

/-- C9 witness at `N = 3`: one pass, and a `step_size = 1` call is the
identity. -/
theorem step_loop_pass_count_witness :
    (loopSteps (3 - 1)).length = 1 ∧
    (∀ s ∈ loopSteps (3 - 1), 1 < s) ∧
    dsLoop (fun _ => 0) 0 3 1 0 ⟨fun _ _ => 0, 0⟩ = ⟨fun _ _ => 0, 0⟩ :=
  step_loop_pass_count 1 3 1 (fun _ => 0) 0 0 ⟨fun _ _ => 0, 0⟩
    le_rfl rfl le_rfl

/-- C10: every point the square step actually visits (for a valid size
`2^n + 1` and a pass step `2^j`, `1 ≤ j ≤ n`) has at least three in-bounds
neighbors, so `count` is never zero and `avg /= count` never divides by
zero. -/
theorem square_step_count_never_zero (n j N step half y x : Nat)
    (hn : 1 ≤ n) (hN : N = 2 ^ n + 1) (hj : 1 ≤ j) (hjn : j ≤ n)
    (hstep : step = 2 ^ j) (hhalf : half = step / 2)
    (hmem : (y, x) ∈ squareCoords N step half) :
    3 ≤ squareNeighborCount N half y x ∧
    (squareNeighborCount N half y x : ℚ) ≠ 0 := by
  have hp2 : 0 < 2 ^ n := Nat.two_pow_pos n
  have hSH : step = 2 * half := by
    rcases j with - | m
    · omega
    · have hps : 2 ^ (m + 1) = 2 ^ m * 2 := pow_succ 2 m
      have hpm : 0 < 2 ^ m := Nat.two_pow_pos m
      omega
  have hH1 : 1 ≤ half := by
    have hpj : 0 < 2 ^ j := Nat.two_pow_pos j
    omega
  have hdvd : step ∣ 2 ^ n := hstep ▸ pow_dvd_pow 2 hjn
  have hstepN : step ≤ 2 ^ n := Nat.le_of_dvd hp2 hdvd
  have hHN : half < N := by omega
  obtain ⟨hy', hx'⟩ := mem_squareCoords hmem
  obtain ⟨-, hyN, hymod⟩ := pyRange_mem (by omega) hy'
  obtain ⟨-, hxN, hxmod⟩ := pyRange_mem (by omega) hx'
  rw [Nat.zero_mod] at hymod
  rw [Nat.mod_mod_of_dvd _ dvd_rfl] at hxmod
  have hyd : half ∣ y := Nat.dvd_of_mod_eq_zero hymod
  have gap : ∀ a : Nat, step ∣ a → a < 2 ^ n → a + step ≤ 2 ^ n := by
    intro a ha hlt
    have h1 : step ∣ 2 ^ n - a := Nat.dvd_sub' hdvd ha
    have h2 : step ≤ 2 ^ n - a := Nat.le_of_dvd (by omega) h1
    omega
  have key : 3 ≤ squareNeighborCount N half y x := by
    by_cases hyS : step ∣ y
    · -- y on the coarse lattice: x ≡ half (mod step), both horizontal
      -- neighbors are in bounds, and at least one vertical neighbor is.
      have hy0 : y % step = 0 := Nat.mod_eq_zero_of_dvd hyS
      have hyh : (y + half) % step = half :=
        add_mod_eq_of_mod_zero hy0 (by omega)
      have hxh : x % step = half := by rw [hxmod, hyh]
      have hxL : half ≤ x := hxh ▸ Nat.mod_le x step
      have hxR : x + half < N := by
        have hdm := Nat.div_add_mod x step
        set a := step * (x / step) with ha
        have haD : step ∣ a := Dvd.intro _ ha.symm
        have hax : a + half = x := by omega
        have haLt : a < 2 ^ n := by omega
        have := gap a haD haLt
        omega
      have hvert : half ≤ y ∨ y + half < N := by
        by_cases hy : half ≤ y
        · exact Or.inl hy
        · right
          have hyy : y % step = y := Nat.mod_eq_of_lt (by omega)
          omega
      rcases hvert with h | h <;> (simp only [squareNeighborCount]; split_ifs <;> omega)
    · -- y an odd multiple of half: both vertical neighbors are in bounds,
      -- x ≡ 0 (mod step), and at least one horizontal neighbor is.
      have hyr : y % step = half := by
        have hhd : half ∣ step := ⟨2, by omega⟩
        have hHr : half ∣ y % step := (Nat.dvd_mod_iff hhd).2 hyd
        have hrne : y % step ≠ 0 := fun h => hyS (Nat.dvd_of_mod_eq_zero h)
        have hrpos : 0 < y % step := Nat.pos_of_ne_zero hrne
        have hrlt : y % step < step := Nat.mod_lt y (by omega)
        have hge : half ≤ y % step := Nat.le_of_dvd hrpos hHr
        have hsub : half ∣ y % step - half := Nat.dvd_sub' hHr dvd_rfl
        have hz : y % step - half = 0 :=
          Nat.eq_zero_of_dvd_of_lt hsub (by omega)
        omega
      have hyT : half ≤ y := hyr ▸ Nat.mod_le y step
      have hyB : y + half < N := by
        have hdm := Nat.div_add_mod y step
        set a := step * (y / step) with ha
        have haD : step ∣ a := Dvd.intro _ ha.symm
        have hax : a + half = y := by omega
        have haLt : a < 2 ^ n := by omega
        have := gap a haD haLt
        omega
      have hyh0 : (y + half) % step = 0 := by
        rw [Nat.add_mod, hyr, Nat.mod_eq_of_lt (show half < step by omega),
          show half + half = step by omega, Nat.mod_self]
      have hxh0 : x % step = 0 := by rw [hxmod, hyh0]
      have hhor : half ≤ x ∨ x + half < N := by
        by_cases hx : half ≤ x
        · exact Or.inl hx
        · right
          have hxx : x % step = x := Nat.mod_eq_of_lt (by omega)
          omega
      rcases hhor with h | h <;> (simp only [squareNeighborCount]; split_ifs <;> omega)
  refine ⟨key, ?_⟩
  exact_mod_cast Nat.cast_ne_zero.2 (by omega : squareNeighborCount N half y x ≠ 0)

/-- C10 witness: the first-pass square point `(0, 2)` of the `size = 5`
grid (`step = 4`, `half = 2`) has three in-bounds neighbors. -/
theorem square_step_count_never_zero_witness :
    3 ≤ squareNeighborCount 5 2 0 2 ∧
    (squareNeighborCount 5 2 0 2 : ℚ) ≠ 0 :=
  square_step_count_never_zero 2 2 5 4 2 0 2 (by norm_num) (by norm_num)
    (by norm_num) le_rfl (by norm_num) (by norm_num) (by decide)

end Fractal
